import Mathlib

/-!
# Verification of the aerospike-client-rust core

A shallow embedding, in Lean 4, of the core algorithms of the
`darwinium-com/aerospike-client-rust` repository:

* replica selection (`cluster/mod.rs`: `PartitionForNamespace::get_node`,
  `get_next_in_sequence`, `Cluster::get_node`),
* tend-loop node eviction (`cluster/mod.rs`: `Cluster::find_nodes_to_remove`),
* batch sharding and reassembly (`batch/batch_executor.rs`:
  `BatchExecutor::get_batch_nodes`, `BatchExecutor::execute_batch_read`),
* server-reply result dispatch (`commands/read_command.rs`,
  `commands/operate_command.rs`),
* the CDT (MessagePack-compatible) container decoder
  (`derive/readable.rs`: `CDTDecoder`).

Pure functions are translated to Lean functions; stateful Rust code (cursor
mutation, vector swaps) is turned into explicit state passing.  `usize`
arithmetic that can underflow, unchecked slice indexing and `todo!()` arms
are modelled by an explicit `panic` outcome.
-/

set_option maxRecDepth 10000

namespace Aerospike

/-- Node identity.  In the source a node is an `Arc<Node>` and node equality
on the selection path is `Arc::ptr_eq`; within one cluster every partition
slot holding a given node holds a clone of the same `Arc`, so pointer
equality is equality of node identity.  We model a node by a numeric id. -/
abbrev Node := Nat

/-- The server result code, as produced by `ResultCode::from(result_code)`.
`commands/read_command.rs` and `commands/operate_command.rs` only distinguish
`Ok`, `UdfBadResponse` and "any other code", so the embedding keeps the other
codes abstract as their wire byte. -/
inductive ResultCode where
  | Ok
  | UdfBadResponse
  | other (code : Nat)
deriving DecidableEq, Repr

/-- The error kinds of `errors.rs` (`impl_error_chain_kind!` block) that the
core paths can produce.  `From<String> for Error` wraps the string in
`ErrorKind::Msg` (errors.rs lines 233-249); `Derive` is the error produced by
`serde::de::Error::custom` (readable.rs lines 38-42). -/
inductive ErrorKind where
  | Msg (s : String)
  | BadResponse (details : String)
  | Connection (details : String)
  | InvalidArgument (details : String)
  | InvalidNode (details : String)
  | NoMoreConnections
  | ServerError (rc : ResultCode)
  | UdfBadResponse (details : String)
  | Timeout (details : String)
  | Derive (details : String)
deriving DecidableEq, Repr

/-! ## Replica selection (`cluster/mod.rs` lines 41-98 and 554-562) -/

/-- Modelled from the spec: `node::PARTITIONS` lives in `cluster/node.rs`,
which is not part of the provided sources; the spec fixes the partition count
at 4096 ("P is the server's fixed partition count (conventionally 4096)"). -/
def PARTITIONS : Nat := 4096

/-- `PartitionForNamespace` (cluster/mod.rs lines 41-52): for one namespace,
`replicas * PARTITIONS` slots; slot `(r, p)` holds the node serving replica
rank `r` of partition `p`, or nothing.  The `u32` in each slot (a generation
tag in the source) does not influence selection but is kept for fidelity. -/
structure PartitionForNamespace where
  nodes : List (Nat × Option Node)
  replicas : Nat
deriving Repr

namespace PartitionForNamespace

/-- `all_replicas` (cluster/mod.rs lines 55-57): the ranks `0..replicas` of
partition `index`; rank `i` looks up slot `i * PARTITIONS + index` and
flattens the missing-slot and empty-slot cases. -/
def all_replicas (p : PartitionForNamespace) (index : Nat) : List (Option Node) :=
  (List.range p.replicas).map
    (fun i => ((p.nodes.get? (i * PARTITIONS + index)).map Prod.snd).join)

/-- The populated replica sequence: `all_replicas(pid).flatten()` as iterated
by the `Sequence` and `PreferRack` arms (cluster/mod.rs lines 83, 88-92). -/
def sequenceOf (p : PartitionForNamespace) (index : Nat) : List Node :=
  (p.all_replicas index).filterMap id

end PartitionForNamespace

/-- The scanning loop of `get_next_in_sequence` (cluster/mod.rs lines 61-74):
walk the sequence for the first element equal to `last_tried`; on a match
return the next element of the iterator if there is one, else (`break`)
fall back to the head of a fresh sequence; a walk that never matches also
falls back to the head. -/
def nextInSeqAux (whole : List Node) (lastTried : Node) : List Node → Option Node
  | [] => whole.head?
  | r :: rest =>
    if r = lastTried then
      match rest with
      | n :: _ => some n
      | [] => whole.head?
    else nextInSeqAux whole lastTried rest

/-- `get_next_in_sequence` (cluster/mod.rs lines 60-77).  `last_tried` is a
`Weak<Node>`; `none` models a dead or absent weak reference (upgrade
failed), in which case the first populated element is returned. -/
def get_next_in_sequence (seq : List Node) : Option Node → Option Node
  | none => seq.head?
  | some lastTried => nextInSeqAux seq lastTried seq

/-- `crate::policy::Replica`. -/
inductive Replica where
  | Master
  | Sequence
  | PreferRack
deriving DecidableEq, Repr

/-- `PartitionForNamespace::get_node` (cluster/mod.rs lines 59-97).
`rackIds` is `cluster.client_policy.rack_ids`; `isInRack n rids` models
`node.is_in_rack(partition.namespace, rack_ids)` for the fixed namespace of
this table (`Node::is_in_rack` lives in the absent `cluster/node.rs`; per the
spec it is true iff the node's rack for the namespace is in `rack_ids`).
The failure strings convert through `From<String> for Error` into
`ErrorKind::Msg`. -/
def PartitionForNamespace.get_node (p : PartitionForNamespace)
    (rackIds : Option (List Nat)) (isInRack : Node → List Nat → Bool)
    (namespace_ : String) (partitionId : Nat)
    (replica : Replica) (lastTried : Option Node) : Except ErrorKind Node :=
  let seq := p.sequenceOf partitionId
  let node : Except ErrorKind (Option Node) :=
    match replica with
    | .Master => .ok (p.all_replicas partitionId).head?.join
    | .Sequence => .ok (get_next_in_sequence seq lastTried)
    | .PreferRack =>
      match rackIds with
      | none => .error (.Msg "Attempted to use Replica::PreferRack without configuring racks in client policy")
      | some rids =>
        .ok ((get_next_in_sequence (seq.filter (fun n => isInRack n rids)) lastTried).orElse
          (fun _ => get_next_in_sequence seq lastTried))
  match node with
  | .error e => .error e
  | .ok (some n) => .ok n
  | .ok none => .error (.Msg
      ("Cannot get appropriate node for namespace: " ++ namespace_ ++
       " partition: " ++ toString partitionId))

/-- `Cluster::get_node` (cluster/mod.rs lines 554-562): look the namespace up
in the partition table; a missing namespace short-circuits with a `Msg`
error that carries only the namespace. -/
def Cluster.get_node (table : List (String × PartitionForNamespace))
    (rackIds : Option (List Nat)) (isInRack : Node → List Nat → Bool)
    (namespace_ : String) (partitionId : Nat)
    (replica : Replica) (lastTried : Option Node) : Except ErrorKind Node :=
  match table.lookup namespace_ with
  | none => .error (.Msg ("Cannot get appropriate node for namespace: " ++ namespace_))
  | some p => p.get_node rackIds isInRack namespace_ partitionId replica lastTried

/-! ## Tend-loop eviction (`cluster/mod.rs` lines 415-461) -/

/-- The per-node data `find_nodes_to_remove` consults: the active flag, the
consecutive-refresh-failure counter and the reference count.  `id`
distinguishes nodes. -/
structure NodeInfo where
  id : Nat
  active : Bool
  failures : Nat
  referenceCount : Nat
deriving DecidableEq, Repr

/-- `Cluster::find_nodes_to_remove` (cluster/mod.rs lines 415-461).
`refreshCount` is the number of successful refreshes of this tend
iteration; `seedSucceeds` is the result of the `self.seed_nodes().await`
call made in the singleton arm; `inPartitionMap` models
`find_node_in_partition_map`.  Rust `match` guards fall through: a singleton
node with `failures <= 5`, or a two-node cluster failing its guard, is
checked by the multi-node `_` arm. -/
def find_nodes_to_remove (nodes : List NodeInfo) (refreshCount : Nat)
    (seedSucceeds : Bool) (inPartitionMap : NodeInfo → Bool) : List NodeInfo :=
  let clusterSize := nodes.length
  nodes.foldl
    (fun removeList node =>
      if !node.active then removeList ++ [node]
      else if clusterSize = 1 ∧ node.failures > 5 then
        -- 1 if node.failures() > 5 => { if self.seed_nodes().await { push } }
        if seedSucceeds then removeList ++ [node] else removeList
      else if clusterSize = 2 ∧ refreshCount = 1 ∧ node.referenceCount = 0 ∧
          node.failures > 0 then
        removeList ++ [node]
      else
        -- multi-node `_` arm
        if refreshCount ≥ 2 ∧ node.referenceCount = 0 then
          if node.failures = 0 then
            if !inPartitionMap node then removeList ++ [node] else removeList
          else removeList ++ [node]
        else removeList)
    []

/-! ## Batch executor (`batch/batch_executor.rs`) -/

/-- `MAX_BATCH_REQUEST_SIZE` (batch_executor.rs line 31). -/
def MAX_BATCH_REQUEST_SIZE : Nat := 5000

/-- A sealed sub-batch job: the owning node, the batch reads, and the
original caller-space index of each read (`BatchReadCommand::new(policy,
node, reads, indexes)` keeps exactly these three data). -/
structure BatchJob (α : Type) where
  node : Node
  reads : List α
  indexes : List Nat
deriving Repr

/-- The loop body state of `get_batch_nodes` (batch_executor.rs lines
96-123): `map` is the per-node accumulator (`HashMap<Arc<Node>, (Vec<_>,
Vec<usize>)>`, modelled as an association list) and `jobs` the vector of
already-sealed sub-batches.  For each read: fetch or create the owner's
accumulator; if it already holds `MAX_BATCH_REQUEST_SIZE` reads, seal it
into a job and restart it empty; then push the read and its input index. -/
def getBatchNodesGo (owner : α → Node) :
    List α → Nat → List (Node × List α × List Nat) → List (BatchJob α) →
    List (BatchJob α) × List (Node × List α × List Nat)
  | [], _, map, jobs => (jobs, map)
  | read :: rest, index, map, jobs =>
    let n := owner read
    let acc := (map.lookup n).getD ([], [])
    if acc.1.length ≥ MAX_BATCH_REQUEST_SIZE then
      let jobs := jobs ++ [⟨n, acc.1, acc.2⟩]
      let map := map.map (fun e => if e.1 = n then (n, [read], [index]) else e)
      getBatchNodesGo owner rest (index + 1) map jobs
    else
      let entry := (n, acc.1 ++ [read], acc.2 ++ [index])
      let map :=
        if (map.lookup n).isSome then
          map.map (fun e => if e.1 = n then entry else e)
        else map ++ [entry]
      getBatchNodesGo owner rest (index + 1) map jobs

/-- `BatchExecutor::get_batch_nodes` (batch_executor.rs lines 85-130):
run the loop over all reads (with their input index), then drain the
remaining accumulators into jobs.  `owner` models `node_for_key` (assumed to
succeed; capacity reservations are not semantically relevant). -/
def get_batch_nodes (owner : α → Node) (batchReads : List α) : List (BatchJob α) :=
  let (jobs, map) := getBatchNodesGo owner batchReads 0 [] []
  jobs ++ map.map (fun e => ⟨e.1, e.2.1, e.2.2⟩)

/-- In `execute_batch_read` the two parallel vectors `batch_reads` and
`original_indexes` are always indexed and swapped at the same positions, so
the embedding zips them into one list of pairs `(original_index, read)`. -/
abbrev IndexedReads (α : Type) := List (Nat × α)

/-- Swap positions `i` and `j` of the paired vectors
(`batch_reads.swap(i, to); original_indexes.swap(i, to)`).  Under the
theorems' hypotheses both positions are always in bounds (Rust `Vec::swap`
panics otherwise; the out-of-bounds case is unreachable here). -/
def swapPairs (l : IndexedReads α) (i j : Nat) : IndexedReads α :=
  match l.get? i, l.get? j with
  | some a, some b => (l.set i b).set j a
  | _, _ => l

/-- The inner `while original_indexes[i] != i` loop of `execute_batch_read`
(batch_executor.rs lines 61-65), as a fuel-indexed recursion: while the
original index stored at `i` differs from `i`, swap positions `i` and
`original_indexes[i]`.  The loop performs at most one swap per fuel unit;
`execute_batch_read_model` supplies fuel `l.length + 1`, enough because each
swap strictly increases the number of fixed positions (proved below). -/
def cycleFix (i : Nat) : Nat → IndexedReads α → IndexedReads α
  | 0, l => l
  | fuel + 1, l =>
    match l.get? i with
    | none => l
    | some p => if p.1 = i then l else cycleFix i fuel (swapPairs l i p.1)

/-- The outer `for i in 0..batch_reads.len()` loop (batch_executor.rs lines
60-66): `count` iterations remain, current index `i`. -/
def cycleOuter : Nat → Nat → IndexedReads α → IndexedReads α
  | 0, _, l => l
  | count + 1, i, l => cycleOuter count (i + 1) (cycleFix i (l.length + 1) l)

/-- The reassembly of `BatchExecutor::execute_batch_read` (batch_executor.rs
lines 48-70): if there are no jobs return the default empty vector;
otherwise concatenate every job's paired vectors into the first job's and
cycle-sort the result in place. -/
def execute_batch_read_reassemble (jobs : List (IndexedReads α)) : IndexedReads α :=
  match jobs with
  | [] => []
  | _ =>
    let l := jobs.flatten
    cycleOuter l.length 0 l

/-! ## Server-reply result dispatch
(`commands/read_command.rs` lines 72-135, `commands/operate_command.rs`
lines 129-170)

The wire pre-parsing (`Connection::pre_parse_stream_bins`) is abstracted:
a reply is a result code plus the list of its bins, each bin a name and a
decoded particle.  Only the particle shapes the dispatch path inspects are
distinguished. -/

/-- A decoded bin particle: `NULL`, a `STRING` particle (already
UTF-8-decoded) or an `INTEGER` particle. -/
inductive AVal where
  | nullV
  | strV (s : String)
  | intV (n : Int)
deriving DecidableEq, Repr

/-- Deserializing one bin's particle as the `Option<String>` field of
`FailureReason` (read_command.rs lines 125-129): `PreParsedValue::
deserialize_option` maps `NULL` to `None` and otherwise deserializes the
particle as a `String`, which succeeds only for a string particle; an
integer particle is a serde invalid-type error (`ErrorKind::Derive`). -/
def decodeOptString : AVal → Except ErrorKind (Option String)
  | .nullV => .ok none
  | .strV s => .ok (some s)
  | .intV _ => .error (.Derive "invalid type: integer, expected a string")

/-- `FailureReason::deserialize` over the bin stream (read_command.rs lines
123-134): the derived visitor walks the bins in order; a bin named
`FAILURE` is decoded into the field (a second such bin is a serde
duplicate-field error), every other bin is skipped via
`deserialize_ignored_any`.  The reason is the decoded field, or
`"UDF Error"` when the field stayed empty. -/
def parse_udf_error : List (String × AVal) → Option (Option String) →
    Except ErrorKind String
  | [], found => .ok ((found.join).getD "UDF Error")
  | (name, v) :: rest, found =>
    if name = "FAILURE" then
      match found with
      | some _ => .error (.Derive "duplicate field FAILURE")
      | none =>
        match decodeOptString v with
        | .error e => .error e
        | .ok s => parse_udf_error rest (some s)
    else parse_udf_error rest found

/-- `ReadCommand::parse_result_internal` (read_command.rs lines 89-105)
restricted to the result-code dispatch: `Ok` parses the record, any other
code is an error — `UdfBadResponse` with the reason parsed from the
`FAILURE` bin, otherwise `ServerError(rc)`. -/
def read_parse_result (rc : ResultCode) (bins : List (String × AVal)) :
    Except ErrorKind Unit :=
  match rc with
  | .Ok => .ok ()
  | .UdfBadResponse =>
    match parse_udf_error bins none with
    | .error e => .error e
    | .ok reason => .error (.UdfBadResponse reason)
  | .other c => .error (.ServerError (.other c))

/-- Modelled from the spec: `Display for Value` lives in the absent
`value.rs`; the spec's UDF scenario (server returns bin `"FAILURE" →
"divide by zero"`, the call fails with `UdfBadResponse("divide by zero")`)
fixes that a string value displays as the raw string; an integer displays
as its decimal digits and `Nil` as an empty representation. -/
def AVal.display : AVal → String
  | .nullV => ""
  | .strV s => s
  | .intV n => toString n

/-- `OperateCommand::parse_result` (operate_command.rs lines 156-169)
restricted to the result-code dispatch: on `UdfBadResponse` the reason is
the display of the first bin named `FAILURE`, defaulting to `"UDF Error"`;
every other non-`Ok` code is `ServerError(rc)`. -/
def operate_parse_result (rc : ResultCode) (bins : List (String × AVal)) :
    Except ErrorKind Unit :=
  match rc with
  | .Ok => .ok ()
  | .UdfBadResponse =>
    let reason := ((bins.find? (fun b => b.1 = "FAILURE")).map
      (fun b => b.2.display)).getD "UDF Error"
    .error (.UdfBadResponse reason)
  | .other c => .error (.ServerError (.other c))

/-! ## The CDT container decoder (`derive/readable.rs` lines 845-1452)

The decoder is a cursor over a byte slice (`CDTDecoder(&[u8], &mut
usize)`).  Outcomes carry the final cursor position; `panic` models Rust
panics: `todo!()` arms, unchecked `self.0[*self.1]` indexing, the
`count - 1` underflow on `usize`, and `&body[1..]` on an empty body. -/

/-- Outcome of a decoding step: success with a value and the new cursor,
a returned error (`ErrorKind::Derive` / serde errors) with the cursor as
the failing step left it, or a Rust panic. -/
inductive DOut (α : Type) where
  | ok (val : α) (pos : Nat)
  | err (pos : Nat)
  | panic
deriving DecidableEq, Repr

/-- Map the success value of an outcome. -/
def DOut.map (f : α → β) : DOut α → DOut β
  | .ok v pos => .ok (f v) pos
  | .err pos => .err pos
  | .panic => .panic

/-- `CDTDecoder::take_byte` (readable.rs lines 895-903): bounds-checked
single-byte read; "Ran out of data" leaves the cursor unmoved. -/
def takeByte (buf : List Nat) (pos : Nat) : DOut Nat :=
  match buf.get? pos with
  | none => .err pos
  | some b => .ok b (pos + 1)

/-- `CDTDecoder::take_bytes::<N>` followed by `uN::from_be_bytes`
(readable.rs lines 905-917): bounds-checked read of `n` bytes as a
big-endian unsigned integer. -/
def readBE (buf : List Nat) (pos n : Nat) : DOut Nat :=
  if pos + n ≤ buf.length then
    .ok (((buf.drop pos).take n).foldl (fun acc b => acc * 256 + b) 0) (pos + n)
  else .err pos

/-- `CDTDecoder::take_nbyte` (readable.rs lines 920-928): bounds-checked
slice of `n` bytes. -/
def takeNbyte (buf : List Nat) (pos n : Nat) : DOut (List Nat) :=
  if pos + n ≤ buf.length then .ok ((buf.drop pos).take n) (pos + n)
  else .err pos

/-- Modelled from the spec: `ParticleType` and its `From<u8>` live in the
absent `common/particle_type.rs`.  The spec's particle-type table gives the
valid wire tags (`NULL=0, INTEGER=1, FLOAT=2, STRING=3, BLOB=4, DIGEST=6,
BOOL=17, HLL=18, MAP=19, LIST=20, LDT=21, GEOJSON=23`); upstream
`From<u8>` panics on any other byte. -/
def particleTypeKnown (t : Nat) : Bool :=
  t = 0 ∨ t = 1 ∨ t = 2 ∨ t = 3 ∨ t = 4 ∨ t = 6 ∨ t = 17 ∨ t = 18 ∨
  t = 19 ∨ t = 20 ∨ t = 21 ∨ t = 23

/-- The continuation-byte test of UTF-8 validation. -/
def utf8Cont (b : Nat) : Bool := 0x80 ≤ b ∧ b ≤ 0xbf

/-- `std::str::from_utf8` validity (used by `deserialize_any_buffer`,
readable.rs line 943): standard UTF-8 — no overlong forms, no surrogates,
at most U+10FFFF. -/
def utf8Valid : List Nat → Bool
  | [] => true
  | b :: rest =>
    if b ≤ 0x7f then utf8Valid rest
    else if b < 0xc2 then false
    else if b ≤ 0xdf then
      match rest with
      | c1 :: rest2 => utf8Cont c1 && utf8Valid rest2
      | [] => false
    else if b ≤ 0xef then
      match rest with
      | c1 :: c2 :: rest2 =>
        (if b = 0xe0 then decide (0xa0 ≤ c1 ∧ c1 ≤ 0xbf)
         else if b = 0xed then decide (0x80 ≤ c1 ∧ c1 ≤ 0x9f)
         else utf8Cont c1) && utf8Cont c2 && utf8Valid rest2
      | _ => false
    else if b ≤ 0xf4 then
      match rest with
      | c1 :: c2 :: c3 :: rest2 =>
        (if b = 0xf0 then decide (0x90 ≤ c1 ∧ c1 ≤ 0xbf)
         else if b = 0xf4 then decide (0x80 ≤ c1 ∧ c1 ≤ 0x8f)
         else utf8Cont c1) && utf8Cont c2 && utf8Cont c3 && utf8Valid rest2
      | _ => false
    else false

/-- The local `deserialize_any_buffer` of `CDTDecoder::deserialize_any`
(readable.rs lines 937-947): take the embedded particle-type byte
(an unknown tag makes `ParticleType::from` panic), then `take_nbyte(count -
1)` — for `count = 0` the `usize` subtraction underflows, a panic — and for
`STRING`/`GEOJSON` check the body is UTF-8. -/
def anyBuffer (buf : List Nat) (pos count : Nat) : DOut Unit :=
  match takeByte buf pos with
  | .err p => .err p
  | .panic => .panic
  | .ok t p =>
    if ¬ particleTypeKnown t then .panic
    else if count = 0 then .panic
    else
      match takeNbyte buf p (count - 1) with
      | .err p2 => .err p2
      | .panic => .panic
      | .ok body p2 =>
        if t = 3 ∨ t = 23 then
          if utf8Valid body then .ok () p2 else .err p2
        else .ok () p2

mutual

/-- `CDTDecoder::deserialize_any` (readable.rs lines 934-1002) under a
fully-materializing visitor (such as the `Value` visitor): every container
is drained — `visit_map(CDTListOrMap(count, ..))` deserializes `count` keys
and `count` values, `visit_seq` deserializes `count` elements — and each
element is itself decoded with `deserialize_any`.  Only the cursor motion
is tracked.  Fuel decreases on every nested value; any run that returns
`ok` is independent of sufficiently large fuel. -/
def anyDecode (buf : List Nat) : Nat → Nat → DOut Unit
  | 0, pos => .err pos
  | fuel + 1, pos =>
    match takeByte buf pos with
    | .err p => .err p
    | .panic => .panic
    | .ok b p =>
      if b ≤ 0x7f then .ok () p
      else if b ≤ 0x8f then anySeq buf fuel ((b % 16) * 2) p
      else if b ≤ 0x9f then anySeq buf fuel (b % 16) p
      else if b ≤ 0xbf then anyBuffer buf p (b % 32)
      else if b = 0xc0 then .ok () p
      else if b = 0xc2 ∨ b = 0xc3 then .ok () p
      else if b = 0xc4 ∨ b = 0xd9 then
        match readBE buf p 1 with
        | .err p2 => .err p2
        | .panic => .panic
        | .ok c p2 => anyBuffer buf p2 c
      else if b = 0xc5 ∨ b = 0xda then
        match readBE buf p 2 with
        | .err p2 => .err p2
        | .panic => .panic
        | .ok c p2 => anyBuffer buf p2 c
      else if b = 0xc6 ∨ b = 0xdb then
        match readBE buf p 4 with
        | .err p2 => .err p2
        | .panic => .panic
        | .ok c p2 => anyBuffer buf p2 c
      else if b = 0xca then (readBE buf p 4).map (fun _ => ())
      else if b = 0xcb then (readBE buf p 8).map (fun _ => ())
      else if b = 0xcc then (readBE buf p 1).map (fun _ => ())
      else if b = 0xcd then (readBE buf p 2).map (fun _ => ())
      else if b = 0xce then (readBE buf p 4).map (fun _ => ())
      else if b = 0xcf then (readBE buf p 8).map (fun _ => ())
      else if b = 0xd0 then (readBE buf p 1).map (fun _ => ())
      else if b = 0xd1 then (readBE buf p 2).map (fun _ => ())
      else if b = 0xd2 then (readBE buf p 4).map (fun _ => ())
      else if b = 0xd3 then (readBE buf p 8).map (fun _ => ())
      else if b = 0xdc then
        match readBE buf p 2 with
        | .err p2 => .err p2
        | .panic => .panic
        | .ok c p2 => anySeq buf fuel c p2
      else if b = 0xdd then
        match readBE buf p 4 with
        | .err p2 => .err p2
        | .panic => .panic
        | .ok c p2 => anySeq buf fuel c p2
      else if b = 0xde then
        match readBE buf p 2 with
        | .err p2 => .err p2
        | .panic => .panic
        | .ok c p2 => anySeq buf fuel (c * 2) p2
      else if b = 0xdf then
        match readBE buf p 4 with
        | .err p2 => .err p2
        | .panic => .panic
        | .ok c p2 => anySeq buf fuel (c * 2) p2
      else if 0xe0 ≤ b then .ok () p
      else .panic  -- 0xc1, 0xc7..=0xc9, 0xd4..=0xd8: `todo!()`

/-- Draining `count` further values of a container with `deserialize_any`
(the `CDTListOrMap` accessors, readable.rs lines 1454-1496, under a
fully-materializing visitor); each element consumes one fuel unit. -/
def anySeq (buf : List Nat) : Nat → Nat → Nat → DOut Unit
  | _, 0, pos => .ok () pos
  | 0, _ + 1, pos => .err pos
  | fuel + 1, count + 1, pos =>
    match anyDecode buf fuel pos with
    | .ok _ p => anySeq buf fuel count p
    | .err p => .err p
    | .panic => .panic

end

mutual

/-- `CDTDecoder::deserialize_ignored_any` (readable.rs lines 1389-1451):
skip one value.  Fixed-width payloads use bounds-checked reads; the
`0xa0-0xbf` and `0xc4-0xc6`/`0xd9-0xdb` arms advance the cursor by the
payload length *without* a bounds check; every lead byte not named by the
match (`_ => ()`) consumes only itself.  Fuel mirrors `anyDecode`. -/
def ignoreAny (buf : List Nat) : Nat → Nat → DOut Unit
  | 0, pos => .err pos
  | fuel + 1, pos =>
    match takeByte buf pos with
    | .err p => .err p
    | .panic => .panic
    | .ok b p =>
      if b ≤ 0x7f then .ok () p
      else if b ≤ 0x8f then ignoreSeq buf fuel ((b % 16) * 2) p
      else if b ≤ 0x9f then ignoreSeq buf fuel (b % 16) p
      else if b ≤ 0xbf then .ok () (p + b % 32)
      else if b = 0xc0 then .ok () p
      else if b = 0xc2 ∨ b = 0xc3 then .ok () p
      else if b = 0xc4 ∨ b = 0xd9 then
        match readBE buf p 1 with
        | .err p2 => .err p2
        | .panic => .panic
        | .ok c p2 => .ok () (p2 + c)
      else if b = 0xc5 ∨ b = 0xda then
        match readBE buf p 2 with
        | .err p2 => .err p2
        | .panic => .panic
        | .ok c p2 => .ok () (p2 + c)
      else if b = 0xc6 ∨ b = 0xdb then
        match readBE buf p 4 with
        | .err p2 => .err p2
        | .panic => .panic
        | .ok c p2 => .ok () (p2 + c)
      else if b = 0xca then (readBE buf p 4).map (fun _ => ())
      else if b = 0xcb then (readBE buf p 8).map (fun _ => ())
      else if b = 0xcc then (readBE buf p 1).map (fun _ => ())
      else if b = 0xcd then (readBE buf p 2).map (fun _ => ())
      else if b = 0xce then (readBE buf p 4).map (fun _ => ())
      else if b = 0xcf then (readBE buf p 8).map (fun _ => ())
      else if b = 0xd0 then (readBE buf p 1).map (fun _ => ())
      else if b = 0xd1 then (readBE buf p 2).map (fun _ => ())
      else if b = 0xd2 then (readBE buf p 4).map (fun _ => ())
      else if b = 0xd3 then (readBE buf p 8).map (fun _ => ())
      else if b = 0xdc then
        match readBE buf p 2 with
        | .err p2 => .err p2
        | .panic => .panic
        | .ok c p2 => ignoreSeq buf fuel c p2
      else if b = 0xdd then
        match readBE buf p 4 with
        | .err p2 => .err p2
        | .panic => .panic
        | .ok c p2 => ignoreSeq buf fuel c p2
      else if b = 0xde then
        match readBE buf p 2 with
        | .err p2 => .err p2
        | .panic => .panic
        | .ok c p2 => ignoreSeq buf fuel (c * 2) p2
      else if b = 0xdf then
        match readBE buf p 4 with
        | .err p2 => .err p2
        | .panic => .panic
        | .ok c p2 => ignoreSeq buf fuel (c * 2) p2
      else .ok () p  -- 0xe0..=0xff and all unsupported types: `_ => ()`

/-- The local `ignore_values` of `deserialize_ignored_any` (readable.rs
lines 1392-1409): skip `count` values, *discarding* each inner skip's
error (`let _ = …deserialize_ignored_any(IgnoreVisitor)`) and continuing
from wherever the failed skip left the cursor.  A panic still unwinds. -/
def ignoreSeq (buf : List Nat) : Nat → Nat → Nat → DOut Unit
  | _, 0, pos => .ok () pos
  | 0, _ + 1, pos => .err pos
  | fuel + 1, count + 1, pos =>
    match ignoreAny buf fuel pos with
    | .ok _ p => ignoreSeq buf fuel count p
    | .err p => ignoreSeq buf fuel count p
    | .panic => .panic

end

/-- `CDTDecoder::deserialize_option` (readable.rs lines 1255-1264): the
lead byte is read with an *unchecked* index `self.0[*self.1]` — a panic
when the cursor is at or past the end of the buffer.  On `0xc0` the cursor
advances and the visitor sees `None` (result `true` here); otherwise the
cursor stays and the value deserializes through `visit_some` (result
`false`, the inner deserialization is the caller's). -/
def deserialize_option_probe (buf : List Nat) (pos : Nat) : DOut Bool :=
  match buf.get? pos with
  | none => .panic
  | some b => if b = 0xc0 then .ok true (pos + 1) else .ok false pos

/-- `CDTDecoder::deserialize_u16` (readable.rs lines 1087-1099) against a
`u16`-target serde visitor.  The body is a copy of `deserialize_i16`: every
arm calls `visitor.visit_i16`, and the `0xcd` arm narrows the just-read
`u16` through `i16::try_from` (`.try_into()?`), so values above `i16::MAX`
error out before the visitor runs.  serde's `u16` visitor accepts a
`visit_i16` of any non-negative value. -/
def deserialize_u16 (buf : List Nat) (pos : Nat) : DOut Nat :=
  match takeByte buf pos with
  | .err p => .err p
  | .panic => .panic
  | .ok b p =>
    if b ≤ 0x7f then .ok b p
    else if b = 0xcc then
      match readBE buf p 1 with
      | .err p2 => .err p2
      | .panic => .panic
      | .ok v p2 => .ok v p2
    else if b = 0xd0 then
      match readBE buf p 1 with
      | .err p2 => .err p2
      | .panic => .panic
      | .ok v p2 => if v ≤ 0x7f then .ok v p2 else .err p2
    else if b = 0xcd then
      match readBE buf p 2 with
      | .err p2 => .err p2
      | .panic => .panic
      | .ok v p2 => if v ≤ 0x7fff then .ok v p2 else .err p2
    else if b = 0xd1 then
      match readBE buf p 2 with
      | .err p2 => .err p2
      | .panic => .panic
      | .ok v p2 => if v ≤ 0x7fff then .ok v p2 else .err p2
    else .err p

/-! ## Theorems -/

/-- C3, counterexample.  A single active node with exactly 5 consecutive
refresh failures is *not* evicted even though reseeding succeeded: the
singleton arm's guard is `node.failures() > 5`, so at 5 failures the guard
fails and the node falls through to the multi-node arm, which does not fire
either. -/
theorem singleton_five_failures_not_evicted :
    (NodeInfo.failures ⟨0, true, 5, 0⟩ = 5) ∧
    find_nodes_to_remove [⟨0, true, 5, 0⟩] 0 true (fun _ => true) = [] := by
  constructor <;> rfl

/-- C3 (amended): in a tend iteration over a single-node cluster (so at most
one successful refresh), an active node is placed on the eviction list
exactly when it has *more than 5* (i.e. at least 6) consecutive refresh
failures and reseeding succeeded. -/
theorem singleton_eviction_threshold (n : NodeInfo) (refreshCount : Nat)
    (seedSucceeds : Bool) (inPartitionMap : NodeInfo → Bool)
    (hact : n.active = true) (hrc : refreshCount ≤ 1) :
    find_nodes_to_remove [n] refreshCount seedSucceeds inPartitionMap =
      if 5 < n.failures ∧ seedSucceeds = true then [n] else [] := by
  simp only [find_nodes_to_remove, List.foldl, List.length_cons,
    List.length_nil, hact]
  have h2 : ¬ ((0 : Nat) + 1 = 2 ∧ refreshCount = 1 ∧ n.referenceCount = 0 ∧
      n.failures > 0) := by omega
  have hm : ¬ (refreshCount ≥ 2 ∧ n.referenceCount = 0) := by omega
  by_cases h5 : 5 < n.failures
  · by_cases hs : seedSucceeds = true
    · simp [h5, hs, h2, hm]
    · simp [h5, hs, h2, hm]
  · simp [h5, h2, hm]

/-- C3, witness: a singleton active node with 6 failures is evicted when
reseeding succeeds. -/
theorem singleton_eviction_threshold_witness :
    find_nodes_to_remove [⟨0, true, 6, 0⟩] 0 true (fun _ => true) =
      [⟨0, true, 6, 0⟩] := by
  have h := singleton_eviction_threshold ⟨0, true, 6, 0⟩ 0 true
    (fun _ => true) rfl (by omega)
  simpa using h

/-- C9: the CDT decoder is not total — it panics on inputs its own
"Ran out of data" error path was meant to reject.  `deserialize_any` on a
zero-length fixstr followed by one byte (`[0xa0, 0x03]`) evaluates
`count - 1` with `count = 0`, a `usize` underflow (debug: overflow panic;
release: wrapped length making the subsequent slice panic), and
`deserialize_option` at the end of the buffer evaluates `self.0[*self.1]`
out of bounds. -/
theorem cdt_decoder_panics :
    anyDecode [0xa0, 0x03] 2 0 = .panic ∧
    deserialize_option_probe [] 0 = .panic := by
  constructor <;> rfl

/-- C10: decoding a CDT uint16 element (`0xCD` + big-endian value) into a
`u16` target fails for every value above `i16::MAX`: `deserialize_u16`
visits `visit_i16` and narrows the freshly read `u16` through
`i16::try_from`, so `32768` (bytes `[0xCD, 0x80, 0x00]`) errors while
`32767` still decodes. -/
theorem deserialize_u16_narrows_through_i16 :
    deserialize_u16 [0xcd, 0x80, 0x00] 0 = .err 3 ∧
    deserialize_u16 [0xcd, 0x7f, 0xff] 0 = .ok 32767 3 := by
  constructor <;> rfl

/-! ### Helper lemmas on the sequence walk -/

theorem head?_mem {l : List Node} {n : Node} (h : l.head? = some n) : n ∈ l := by
  cases l with
  | nil => simp at h
  | cons a rest => simp at h; simp [h]

theorem nextInSeqAux_mem {whole l : List Node} {lt n : Node}
    (h : nextInSeqAux whole lt l = some n) : n ∈ l ∨ n ∈ whole := by
  induction l with
  | nil => exact .inr (head?_mem h)
  | cons r rest ih =>
    by_cases hr : r = lt
    · simp only [nextInSeqAux, hr, if_true] at h
      cases rest with
      | nil => exact .inr (head?_mem h)
      | cons m ms => simp at h; simp [h]
    · simp only [nextInSeqAux, hr, if_false] at h
      rcases ih h with h' | h'
      · exact .inl (List.mem_cons_of_mem _ h')
      · exact .inr h'

theorem head?_isSome_of_ne_nil {l : List Node} (h : l ≠ []) :
    l.head?.isSome := by
  cases l with
  | nil => exact absurd rfl h
  | cons a rest => simp

theorem nextInSeqAux_isSome {whole : List Node} {lt : Node}
    (hw : whole ≠ []) (l : List Node) : (nextInSeqAux whole lt l).isSome := by
  induction l with
  | nil => exact head?_isSome_of_ne_nil hw
  | cons r rest ih =>
    by_cases hr : r = lt
    · simp only [nextInSeqAux, hr, if_true]
      cases rest with
      | nil => exact head?_isSome_of_ne_nil hw
      | cons m ms => simp
    · simpa [nextInSeqAux, hr] using ih

/-- A successful sequence walk returns an element of the sequence. -/
theorem get_next_in_sequence_mem {seq : List Node} {lt : Option Node} {n : Node}
    (h : get_next_in_sequence seq lt = some n) : n ∈ seq := by
  cases lt with
  | none => exact head?_mem h
  | some l =>
    rcases nextInSeqAux_mem h with h' | h' <;> exact h'

/-- A nonempty sequence always yields a node. -/
theorem get_next_in_sequence_isSome {seq : List Node} (hs : seq ≠ [])
    (lt : Option Node) : (get_next_in_sequence seq lt).isSome := by
  cases lt with
  | none => exact head?_isSome_of_ne_nil hs
  | some l => exact nextInSeqAux_isSome hs seq

theorem get_next_in_sequence_nil (lt : Option Node) :
    get_next_in_sequence [] lt = none := by
  cases lt <;> rfl

/-- C5, counterexample.  Selection over an unknown namespace returns a
`Msg`-kind error (not `InvalidNode`) whose detail carries only the
namespace, not the partition id. -/
theorem get_node_unknown_namespace_counterexample :
    Cluster.get_node [] none (fun _ _ => true) "test" 7 .Sequence none =
      .error (.Msg "Cannot get appropriate node for namespace: test") := by
  rfl

/-- C5 (amended): when no populated node exists, `get_node` fails with an
error of kind `Msg` (the `format!` string converts through `From<String>`,
not through `InvalidNode`): with the namespace present but no populated
replica the detail carries the namespace and partition id; with the
namespace absent the detail carries the namespace only. -/
theorem get_node_failure_detail (table : List (String × PartitionForNamespace))
    (rackIds : Option (List Nat)) (isInRack : Node → List Nat → Bool)
    (namespace_ : String) (partitionId : Nat) (lastTried : Option Node) :
    (table.lookup namespace_ = none →
      Cluster.get_node table rackIds isInRack namespace_ partitionId .Sequence
          lastTried =
        .error (.Msg ("Cannot get appropriate node for namespace: " ++
          namespace_))) ∧
    (∀ p : PartitionForNamespace, table.lookup namespace_ = some p →
      p.sequenceOf partitionId = [] →
      Cluster.get_node table rackIds isInRack namespace_ partitionId .Sequence
          lastTried =
        .error (.Msg ("Cannot get appropriate node for namespace: " ++
          namespace_ ++ " partition: " ++ toString partitionId))) := by
  constructor
  · intro hl
    simp [Cluster.get_node, hl]
  · intro p hl hseq
    simp only [Cluster.get_node, hl, PartitionForNamespace.get_node, hseq,
      get_next_in_sequence_nil]

/-- C5, witness: with namespace `"test"` present but unpopulated and
partition id 7 the detail names both; with an empty table it names only the
namespace. -/
theorem get_node_failure_detail_witness :
    Cluster.get_node [("test", ⟨[], 0⟩)] none (fun _ _ => true) "test" 7
        .Sequence none =
      .error (.Msg "Cannot get appropriate node for namespace: test partition: 7") ∧
    Cluster.get_node [] none (fun _ _ => true) "test" 7 .Sequence none =
      .error (.Msg "Cannot get appropriate node for namespace: test") := by
  constructor
  · exact (get_node_failure_detail [("test", ⟨[], 0⟩)] none (fun _ _ => true)
      "test" 7 none).2 ⟨[], 0⟩ rfl rfl
  · exact (get_node_failure_detail [] none (fun _ _ => true) "test" 7 none).1 rfl

/-- C4, counterexample.  `PreferRack` with `rack_ids` unset fails with a
`Msg`-kind error (the `&str` converts through `From<&str> for Error` into
`ErrorKind::Msg`), not `InvalidArgument`. -/
theorem prefer_rack_no_racks_counterexample :
    PartitionForNamespace.get_node ⟨[], 0⟩ none (fun _ _ => true) "ns" 0
        .PreferRack none =
      .error (.Msg "Attempted to use Replica::PreferRack without configuring racks in client policy") := by
  rfl

/-- C4 (amended): with `rack_ids` unset, `PreferRack` selection fails with a
`Msg`-kind error; with `rack_ids` set it returns a rack-local replica
whenever the filtered sequence walk is nonempty and otherwise coincides
with the unfiltered `Sequence` walk. -/
theorem prefer_rack_selection (p : PartitionForNamespace)
    (isInRack : Node → List Nat → Bool) (namespace_ : String)
    (partitionId : Nat) (lastTried : Option Node) :
    (p.get_node none isInRack namespace_ partitionId .PreferRack lastTried =
      .error (.Msg "Attempted to use Replica::PreferRack without configuring racks in client policy")) ∧
    (∀ rids : List Nat,
      ((p.sequenceOf partitionId).filter (fun n => isInRack n rids) ≠ [] →
        ∃ n, p.get_node (some rids) isInRack namespace_ partitionId .PreferRack
            lastTried = .ok n ∧ isInRack n rids = true) ∧
      ((p.sequenceOf partitionId).filter (fun n => isInRack n rids) = [] →
        p.get_node (some rids) isInRack namespace_ partitionId .PreferRack
            lastTried =
          p.get_node (some rids) isInRack namespace_ partitionId .Sequence
            lastTried)) := by
  refine ⟨rfl, fun rids => ⟨fun hne => ?_, fun hnil => ?_⟩⟩
  · rcases Option.isSome_iff_exists.mp
      (get_next_in_sequence_isSome hne lastTried) with ⟨n, hn⟩
    refine ⟨n, ?_, ?_⟩
    · simp only [PartitionForNamespace.get_node, hn, Option.orElse]
    · have hmem := get_next_in_sequence_mem hn
      exact (List.mem_filter.mp hmem).2
  · simp only [PartitionForNamespace.get_node, hnil, get_next_in_sequence_nil,
      Option.orElse, Option.none_orElse]

/-- C4, witness: one populated rank, node 3 with a matching rack: the
filtered walk is nonempty and `PreferRack` returns 3. -/
theorem prefer_rack_selection_witness :
    PartitionForNamespace.get_node ⟨[(0, some 3)], 1⟩ none
        (fun n rids => rids.contains n) "ns" 0 .PreferRack none =
      .error (.Msg "Attempted to use Replica::PreferRack without configuring racks in client policy") ∧
    ∃ n, PartitionForNamespace.get_node ⟨[(0, some 3)], 1⟩ (some [3])
        (fun n rids => rids.contains n) "ns" 0 .PreferRack none = .ok n ∧
      ([3].contains n) = true := by
  refine ⟨(prefer_rack_selection ⟨[(0, some 3)], 1⟩
    (fun n rids => rids.contains n) "ns" 0 none).1, ?_⟩
  exact ((prefer_rack_selection ⟨[(0, some 3)], 1⟩
    (fun n rids => rids.contains n) "ns" 0 none).2 [3]).1 (by decide)

/-- The scanning loop characterized by the position of the first occurrence
of `lastTried`: return the element after it, or the head of `whole` when it
is last. -/
theorem nextInSeqAux_spec (whole : List Node) (lt : Node) :
    ∀ l : List Node, lt ∈ l →
      nextInSeqAux whole lt l =
        if l.indexOf lt + 1 < l.length then l.get? (l.indexOf lt + 1)
        else whole.head? := by
  intro l
  induction l with
  | nil => intro h; simp at h
  | cons r rest ih =>
    intro hmem
    by_cases hr : r = lt
    · subst hr
      simp only [nextInSeqAux, if_true, List.indexOf_cons_self]
      cases rest with
      | nil => simp
      | cons m ms => simp
    · have hmem' : lt ∈ rest := by
        rcases List.mem_cons.mp hmem with h | h
        · exact absurd h.symm hr
        · exact h
      simp only [nextInSeqAux, hr, if_false]
      rw [ih hmem', List.indexOf_cons_ne rest hr]
      simp only [Nat.succ_eq_add_one, List.length_cons, List.get?_cons_succ,
        Nat.add_lt_add_iff_right]

/-- C2, counterexample.  The partition-map representation allows the same
node at two replica ranks.  With node 7 populated at both ranks of
partition 0 the sequence holds two populated ranks, yet the `Sequence`
walk with `last_tried = 7` returns 7 — the rank after the first match is
again `last_tried`, although it is not the only populated rank. -/
theorem sequence_returns_last_tried_with_duplicate_ranks :
    ((PartitionForNamespace.mk
        ((0, some 7) :: (List.replicate 4095 (0, none) ++ [(0, some 7)]))
        2).sequenceOf 0).length = 2 ∧
    PartitionForNamespace.get_node
        ⟨(0, some 7) :: (List.replicate 4095 (0, none) ++ [(0, some 7)]), 2⟩
        none (fun _ _ => true) "ns" 0 .Sequence (some 7) = .ok 7 := by
  constructor <;> rfl

/-- C2 (amended): when the populated ranks of the partition hold pairwise
distinct nodes (`Nodup`), at least two ranks are populated and `last_tried`
is in the sequence, `Sequence` selection succeeds, never returns
`last_tried`, and returns exactly the populated rank after the first
occurrence of `last_tried`, wrapping to the first populated rank when
`last_tried` is last. -/
theorem sequence_skips_last_tried (p : PartitionForNamespace)
    (rackIds : Option (List Nat)) (isInRack : Node → List Nat → Bool)
    (namespace_ : String) (partitionId : Nat) (lt : Node)
    (hnd : (p.sequenceOf partitionId).Nodup)
    (hmem : lt ∈ p.sequenceOf partitionId)
    (hlen : 2 ≤ (p.sequenceOf partitionId).length) :
    ∃ n, p.get_node rackIds isInRack namespace_ partitionId .Sequence
        (some lt) = .ok n ∧ n ≠ lt ∧
      some n =
        (if (p.sequenceOf partitionId).indexOf lt + 1 <
            (p.sequenceOf partitionId).length
         then (p.sequenceOf partitionId).get?
            ((p.sequenceOf partitionId).indexOf lt + 1)
         else (p.sequenceOf partitionId).head?) := by
  set seq := p.sequenceOf partitionId with hseq
  have hne : seq ≠ [] := by
    intro h
    rw [h] at hlen
    simp at hlen
  have hwalk : get_next_in_sequence seq (some lt) =
      if seq.indexOf lt + 1 < seq.length then seq.get? (seq.indexOf lt + 1)
      else seq.head? := nextInSeqAux_spec seq lt seq hmem
  have hidx : seq.get? (seq.indexOf lt) = some lt := List.indexOf_get? hmem
  have hkl : seq.indexOf lt < seq.length := List.indexOf_lt_length.mpr hmem
  rcases Option.isSome_iff_exists.mp
    (get_next_in_sequence_isSome hne (some lt)) with ⟨n, hn⟩
  refine ⟨n, ?_, ?_, by rw [← hwalk, hn]⟩
  · simp only [PartitionForNamespace.get_node, ← hseq, hn]
  · intro hcontra
    subst hcontra
    rw [hwalk] at hn
    by_cases hcase : seq.indexOf n + 1 < seq.length
    · rw [if_pos hcase] at hn
      have : seq.indexOf n < seq.length := hkl
      have heq : seq.get? (seq.indexOf n) = seq.get? (seq.indexOf n + 1) := by
        rw [hidx, hn]
      have := List.get?_inj this hnd heq
      omega
    · rw [if_neg hcase] at hn
      have hzero : seq.get? 0 = some n := by
        cases hd : seq with
        | nil => exact absurd hd hne
        | cons a rest => rw [hd] at hn; simpa using hn
      have heq : seq.get? (seq.indexOf n) = seq.get? 0 := by
        rw [hidx, hzero]
      have := List.get?_inj hkl hnd heq
      omega

/-- C2, witness: ranks `[5, 6]`, `last_tried = 6` (the last populated rank):
selection returns 5, the first populated rank, never 6. -/
theorem sequence_skips_last_tried_witness :
    ∃ n, PartitionForNamespace.get_node
        ⟨(0, some 5) :: (List.replicate 4095 (0, none) ++ [(0, some 6)]), 2⟩
        none (fun _ _ => true) "ns" 0 .Sequence (some 6) = .ok n ∧ n ≠ 6 ∧
      some n =
        (if ((PartitionForNamespace.mk
              ((0, some 5) :: (List.replicate 4095 (0, none) ++ [(0, some 6)]))
              2).sequenceOf 0).indexOf 6 + 1 <
            ((PartitionForNamespace.mk
              ((0, some 5) :: (List.replicate 4095 (0, none) ++ [(0, some 6)]))
              2).sequenceOf 0).length
         then ((PartitionForNamespace.mk
              ((0, some 5) :: (List.replicate 4095 (0, none) ++ [(0, some 6)]))
              2).sequenceOf 0).get?
            (((PartitionForNamespace.mk
              ((0, some 5) :: (List.replicate 4095 (0, none) ++ [(0, some 6)]))
              2).sequenceOf 0).indexOf 6 + 1)
         else ((PartitionForNamespace.mk
              ((0, some 5) :: (List.replicate 4095 (0, none) ++ [(0, some 6)]))
              2).sequenceOf 0).head?) := by
  have hseq : ((PartitionForNamespace.mk
      ((0, some 5) :: (List.replicate 4095 (0, none) ++ [(0, some 6)]))
      2).sequenceOf 0) = [5, 6] := by rfl
  exact sequence_skips_last_tried _ none (fun _ _ => true) "ns" 0 6
    (by rw [hseq]; decide) (by rw [hseq]; decide) (by rw [hseq]; decide)

/-! ### Result-code dispatch lemmas -/

theorem parse_udf_error_no_failure {bins : List (String × AVal)}
    (h : bins.filter (fun b => b.1 = "FAILURE") = []) :
    ∀ found, parse_udf_error bins found = .ok ((found.join).getD "UDF Error") := by
  induction bins with
  | nil => intro found; rfl
  | cons b rest ih =>
    intro found
    rw [List.filter_cons] at h
    by_cases hb : b.1 = "FAILURE"
    · simp [hb] at h
    · have hrest : rest.filter (fun b => b.1 = "FAILURE") = [] := by
        simpa [hb] using h
      obtain ⟨name, v⟩ := b
      simp only at hb
      simp only [parse_udf_error, hb, if_false]
      exact ih hrest found

theorem parse_udf_error_one_failure {bins : List (String × AVal)} {s : String}
    (h : bins.filter (fun b => b.1 = "FAILURE") = [("FAILURE", .strV s)]) :
    parse_udf_error bins none = .ok s ∧
    bins.find? (fun b => b.1 = "FAILURE") = some ("FAILURE", .strV s) := by
  induction bins with
  | nil => simp at h
  | cons b rest ih =>
    rw [List.filter_cons] at h
    by_cases hb : b.1 = "FAILURE"
    · have h' : b :: rest.filter (fun b => b.1 = "FAILURE") =
          [("FAILURE", AVal.strV s)] := by simpa [hb] using h
      injection h' with hbv hrest
      subst hbv
      refine ⟨?_, by simp [List.find?]⟩
      simp only [parse_udf_error, if_pos rfl, decodeOptString]
      rw [parse_udf_error_no_failure hrest (some (some s))]
      rfl
    · have hrest : rest.filter (fun b => b.1 = "FAILURE") =
          [("FAILURE", AVal.strV s)] := by simpa [hb] using h
      obtain ⟨name, v⟩ := b
      simp only at hb
      refine ⟨?_, ?_⟩
      · simp only [parse_udf_error, hb, if_false]
        exact (ih hrest).1
      · simpa [List.find?, hb] using (ih hrest).2

/-- C7: a non-`Ok` result code always surfaces as an error: `UdfBadResponse`
carries the string of the reply's single `FAILURE` bin (or the default
`"UDF Error"` when no such bin exists), and every other code becomes
`ServerError(rc)` — identically for `ReadCommand::parse_result_internal` and
`OperateCommand::parse_result`. -/
theorem parse_result_dispatch (rc : ResultCode) (bins : List (String × AVal)) :
    (∀ c, rc = .other c →
      read_parse_result rc bins = .error (.ServerError (.other c)) ∧
      operate_parse_result rc bins = .error (.ServerError (.other c))) ∧
    (rc = .UdfBadResponse →
      (bins.filter (fun b => b.1 = "FAILURE") = [] →
        read_parse_result rc bins = .error (.UdfBadResponse "UDF Error") ∧
        operate_parse_result rc bins = .error (.UdfBadResponse "UDF Error")) ∧
      (∀ s, bins.filter (fun b => b.1 = "FAILURE") = [("FAILURE", .strV s)] →
        read_parse_result rc bins = .error (.UdfBadResponse s) ∧
        operate_parse_result rc bins = .error (.UdfBadResponse s))) := by
  refine ⟨fun c hc => ?_, fun hu => ⟨fun hnil => ?_, fun s hone => ?_⟩⟩
  · subst hc; exact ⟨rfl, rfl⟩
  · subst hu
    constructor
    · simp only [read_parse_result, parse_udf_error_no_failure hnil none]
      rfl
    · have hfind : bins.find? (fun b => b.1 = "FAILURE") = none :=
        List.find?_eq_none.mpr (by
          intro x hx
          have := List.filter_eq_nil.mp hnil x hx
          simpa using this)
      simp [operate_parse_result, hfind]
  · subst hu
    obtain ⟨hparse, hfind⟩ := parse_udf_error_one_failure hone
    constructor
    · simp only [read_parse_result, hparse]
    · simp [operate_parse_result, hfind, AVal.display]

/-- C7, witness: result code `UdfBadResponse` with bins
`[("x", 3), ("FAILURE", "divide by zero")]` fails with
`UdfBadResponse("divide by zero")` on both parse paths, and result code
`rc = other 13` fails with `ServerError(13)`. -/
theorem parse_result_dispatch_witness :
    read_parse_result .UdfBadResponse
        [("x", .intV 3), ("FAILURE", .strV "divide by zero")] =
      .error (.UdfBadResponse "divide by zero") ∧
    operate_parse_result .UdfBadResponse
        [("x", .intV 3), ("FAILURE", .strV "divide by zero")] =
      .error (.UdfBadResponse "divide by zero") ∧
    read_parse_result (.other 13) [] = .error (.ServerError (.other 13)) := by
  have h1 := ((parse_result_dispatch .UdfBadResponse
    [("x", .intV 3), ("FAILURE", .strV "divide by zero")]).2 rfl).2
    "divide by zero" (by decide)
  have h2 := (parse_result_dispatch (.other 13) []).1 13 rfl
  exact ⟨h1.1, h1.2, h2.1⟩

/-! ### Batch sharding lemmas -/

theorem lookup_mem {β : Type} {map : List (Node × β)} {n : Node} {v : β}
    (h : map.lookup n = some v) : (n, v) ∈ map := by
  induction map with
  | nil => exact Option.noConfusion h
  | cons e rest ih =>
    obtain ⟨k, w⟩ := e
    rw [List.lookup] at h
    by_cases hk : n == k
    · simp only [hk] at h
      have : n = k := by simpa using hk
      subst this
      simp only [Option.some.injEq] at h
      subst h
      exact List.mem_cons_self _ _
    · simp only [Bool.not_eq_true] at hk
      rw [hk] at h
      exact List.mem_cons_of_mem _ (ih h)

/-- Every accumulator and every sealed job stays within
`MAX_BATCH_REQUEST_SIZE` through the sharding loop. -/
theorem getBatchNodesGo_bound {α : Type} (owner : α → Node) :
    ∀ (reads : List α) (i : Nat) (map : List (Node × List α × List Nat))
      (jobs : List (BatchJob α)),
      (∀ e ∈ map, (e.2.1).length ≤ MAX_BATCH_REQUEST_SIZE) →
      (∀ j ∈ jobs, j.reads.length ≤ MAX_BATCH_REQUEST_SIZE) →
      (∀ j ∈ (getBatchNodesGo owner reads i map jobs).1,
        j.reads.length ≤ MAX_BATCH_REQUEST_SIZE) ∧
      (∀ e ∈ (getBatchNodesGo owner reads i map jobs).2,
        (e.2.1).length ≤ MAX_BATCH_REQUEST_SIZE) := by
  intro reads
  induction reads with
  | nil =>
    intro i map jobs hmap hjobs
    exact ⟨hjobs, hmap⟩
  | cons r rest ih =>
    intro i map jobs hmap hjobs
    have hacc : ((map.lookup (owner r)).getD ([], [])).1.length ≤
        MAX_BATCH_REQUEST_SIZE := by
      cases hl : map.lookup (owner r) with
      | none => simp [MAX_BATCH_REQUEST_SIZE]
      | some v => simpa using hmap _ (lookup_mem hl)
    by_cases hfull : ((map.lookup (owner r)).getD ([], [])).1.length ≥
        MAX_BATCH_REQUEST_SIZE
    · simp only [getBatchNodesGo, hfull, if_true]
      apply ih
      · intro e he
        rcases List.mem_map.mp he with ⟨e0, he0, hee⟩
        by_cases h0 : e0.1 = owner r
        · simp only [h0, if_true] at hee
          rw [← hee]
          simp [MAX_BATCH_REQUEST_SIZE]
        · simp only [h0, if_false] at hee
          rw [← hee]
          exact hmap e0 he0
      · intro j hj
        rcases List.mem_append.mp hj with hj | hj
        · exact hjobs j hj
        · rcases List.mem_singleton.mp hj with rfl
          exact hacc
    · simp only [getBatchNodesGo, hfull, if_false]
      have hlen : ((map.lookup (owner r)).getD ([], [])).1.length + 1 ≤
          MAX_BATCH_REQUEST_SIZE := by omega
      by_cases hsome : (map.lookup (owner r)).isSome
      · simp only [hsome, if_true]
        apply ih _ _ _ _ hjobs
        intro e he
        rcases List.mem_map.mp he with ⟨e0, he0, hee⟩
        by_cases h0 : e0.1 = owner r
        · simp only [h0, if_true] at hee
          rw [← hee]
          simpa using hlen
        · simp only [h0, if_false] at hee
          rw [← hee]
          exact hmap e0 he0
      · simp only [hsome, if_false]
        apply ih _ _ _ _ hjobs
        intro e he
        rcases List.mem_append.mp he with he | he
        · exact hmap e he
        · rcases List.mem_singleton.mp he with rfl
          simpa using hlen

/-- Consuming a run of same-owner reads that fits in the accumulator just
extends that accumulator, sealing nothing. -/
theorem getBatchNodesGo_single_app {α : Type} (owner : α → Node) (n0 : Node) :
    ∀ (l1 : List α) (l2 : List α) (i : Nat) (acc : List α) (idxs : List Nat)
      (jobs : List (BatchJob α)),
      (∀ r ∈ l1, owner r = n0) →
      acc.length + l1.length ≤ MAX_BATCH_REQUEST_SIZE →
      getBatchNodesGo owner (l1 ++ l2) i [(n0, acc, idxs)] jobs =
        getBatchNodesGo owner l2 (i + l1.length)
          [(n0, acc ++ l1, idxs ++ List.range' i l1.length)] jobs := by
  intro l1
  induction l1 with
  | nil => intro l2 i acc idxs jobs _ _; simp
  | cons r rest ih =>
    intro l2 i acc idxs jobs hown hlen
    have hr : owner r = n0 := hown r (List.mem_cons_self _ _)
    have hlookup : ([(n0, acc, idxs)] : List (Node × List α × List Nat)).lookup
        (owner r) = some (acc, idxs) := by
      simp [List.lookup, hr]
    have hnotfull : ¬ acc.length ≥ MAX_BATCH_REQUEST_SIZE := by
      simp only [List.length_cons] at hlen
      omega
    rw [List.cons_append, getBatchNodesGo]
    simp only [hlookup, Option.getD_some, Option.isSome_some, if_true]
    rw [if_neg hnotfull]
    have hmap : ([(n0, acc, idxs)] : List (Node × List α × List Nat)).map
        (fun e => if e.1 = owner r then (owner r, acc ++ [r], idxs ++ [i]) else e) =
        [(n0, acc ++ [r], idxs ++ [i])] := by
      simp [hr]
    rw [hmap, ih l2 (i + 1) (acc ++ [r]) (idxs ++ [i]) jobs
      (fun x hx => hown x (List.mem_cons_of_mem _ hx))
      (by simp only [List.length_append, List.length_cons, List.length_nil]
        at hlen ⊢; omega)]
    have harg1 : i + 1 + rest.length = i + (r :: rest).length := by
      simp only [List.length_cons]; omega
    have harg2 : (acc ++ [r]) ++ rest = acc ++ r :: rest := by simp
    have harg3 : (idxs ++ [i]) ++ List.range' (i + 1) rest.length =
        idxs ++ List.range' i (r :: rest).length := by
      rw [List.append_assoc, List.length_cons, List.range'_succ]
      rfl
    rw [harg1, harg2, harg3]

/-- C6: batch sharding respects the 5000-read sub-batch cap: every produced
job holds at most `MAX_BATCH_REQUEST_SIZE` reads, a single-owner batch of
exactly 5000 reads yields one job, and one of 5001 reads yields two. -/
theorem batch_sharding_size_limit :
    (∀ (α : Type) (owner : α → Node) (reads : List α),
      ∀ j ∈ get_batch_nodes owner reads,
        j.reads.length ≤ MAX_BATCH_REQUEST_SIZE) ∧
    (∀ (α : Type) (owner : α → Node) (n0 : Node) (reads : List α),
      (∀ r ∈ reads, owner r = n0) →
      (reads.length = 5000 → (get_batch_nodes owner reads).length = 1) ∧
      (reads.length = 5001 → (get_batch_nodes owner reads).length = 2)) := by
  constructor
  · intro α owner reads j hj
    have h := getBatchNodesGo_bound owner reads 0 [] [] (by simp) (by simp)
    unfold get_batch_nodes at hj
    rcases List.mem_append.mp hj with hj | hj
    · exact h.1 j hj
    · rcases List.mem_map.mp hj with ⟨e, he, hje⟩
      rw [← hje]
      exact h.2 e he
  · intro α owner n0 reads hown
    -- First step on a nonempty batch: create the accumulator for `n0`.
    have hstep : ∀ (r : α) (rest : List α), owner r = n0 →
        getBatchNodesGo owner (r :: rest) 0 [] [] =
          getBatchNodesGo owner rest 1 [(n0, [r], [0])] [] := by
      intro r rest hr
      rw [getBatchNodesGo]
      simp [List.lookup, hr, MAX_BATCH_REQUEST_SIZE]
    constructor
    · intro hlen
      cases reads with
      | nil => simp at hlen
      | cons r rest =>
        have hr : owner r = n0 := hown r (List.mem_cons_self _ _)
        have hrest : ∀ x ∈ rest, owner x = n0 :=
          fun x hx => hown x (List.mem_cons_of_mem _ hx)
        have hrlen : rest.length = 4999 := by
          simpa using hlen
        unfold get_batch_nodes
        rw [hstep r rest hr, show rest = rest ++ [] by simp,
          getBatchNodesGo_single_app owner n0 rest [] 1 [r] [0] [] hrest
            (by simp [hrlen, MAX_BATCH_REQUEST_SIZE])]
        simp [getBatchNodesGo]
    · intro hlen
      cases reads with
      | nil => simp at hlen
      | cons r rest =>
        have hr : owner r = n0 := hown r (List.mem_cons_self _ _)
        have hrest : ∀ x ∈ rest, owner x = n0 :=
          fun x hx => hown x (List.mem_cons_of_mem _ hx)
        have hrlen : rest.length = 5000 := by simpa using hlen
        have hne : rest ≠ [] := by
          intro h; rw [h] at hrlen; simp at hrlen
        obtain ⟨l1, last, hsplit⟩ : ∃ l1 last, rest = l1 ++ [last] := by
          refine ⟨rest.dropLast, rest.getLast hne, ?_⟩
          exact (List.dropLast_append_getLast hne).symm
        have hl1 : l1.length = 4999 := by
          have := congrArg List.length hsplit
          simp [hrlen] at this
          omega
        have hlast : owner last = n0 := by
          apply hrest
          rw [hsplit]
          simp
        unfold get_batch_nodes
        rw [hstep r rest hr, hsplit,
          getBatchNodesGo_single_app owner n0 l1 [last] 1 [r] [0] []
            (fun x hx => hrest x (by rw [hsplit]; exact List.mem_append_left _ hx))
            (by simp [hl1, MAX_BATCH_REQUEST_SIZE])]
        rw [getBatchNodesGo]
        have hlookup : ([(n0, [r] ++ l1, [0] ++ List.range' 1 l1.length)] :
            List (Node × List α × List Nat)).lookup (owner last) =
            some ([r] ++ l1, [0] ++ List.range' 1 l1.length) := by
          simp [List.lookup, hlast]
        have hfull : ((([(n0, [r] ++ l1, [0] ++ List.range' 1 l1.length)] :
            List (Node × List α × List Nat)).lookup
              (owner last)).getD ([], [])).1.length ≥ MAX_BATCH_REQUEST_SIZE := by
          rw [hlookup]
          simp [hl1, MAX_BATCH_REQUEST_SIZE]
        simp only [hfull, if_true, hlookup, Option.getD_some]
        simp only [getBatchNodesGo, hlast, if_pos rfl, List.map_cons,
          List.map_nil]
        simp only [MAX_BATCH_REQUEST_SIZE]
        simp [hl1]

/-- C6, witness: 5000 unit reads to one owner shard into one job, 5001 into
two, with every job within the cap. -/
theorem batch_sharding_size_limit_witness :
    (get_batch_nodes (fun _ => (0 : Node)) (List.replicate 5000 ())).length = 1 ∧
    (get_batch_nodes (fun _ => (0 : Node)) (List.replicate 5001 ())).length = 2 := by
  constructor
  · exact (batch_sharding_size_limit.2 Unit (fun _ => 0) 0
      (List.replicate 5000 ()) (fun r _ => rfl)).1 (by rw [List.length_replicate])
  · exact (batch_sharding_size_limit.2 Unit (fun _ => 0) 0
      (List.replicate 5001 ()) (fun r _ => rfl)).2 (by rw [List.length_replicate])

/-! ### CDT decoder lemmas -/

theorem takeByte_ok {buf : List Nat} {pos b p : Nat}
    (h : takeByte buf pos = .ok b p) : p = pos + 1 := by
  unfold takeByte at h
  cases hg : buf.get? pos with
  | none => rw [hg] at h; cases h
  | some c => rw [hg] at h; cases h; rfl

theorem takeNbyte_ok {buf : List Nat} {pos n p : Nat} {body : List Nat}
    (h : takeNbyte buf pos n = .ok body p) : p = pos + n := by
  unfold takeNbyte at h
  by_cases hle : pos + n ≤ buf.length
  · rw [if_pos hle] at h; cases h; rfl
  · rw [if_neg hle] at h; cases h

theorem readBE_ok {buf : List Nat} {pos n v p : Nat}
    (h : readBE buf pos n = .ok v p) : p = pos + n := by
  unfold readBE at h
  by_cases hle : pos + n ≤ buf.length
  · rw [if_pos hle] at h; cases h; rfl
  · rw [if_neg hle] at h; cases h

/-- A successful `deserialize_any_buffer` consumes exactly `count` bytes:
one embedded particle-type byte plus `count - 1` body bytes (`count ≥ 1`,
since `count = 0` panics). -/
theorem anyBuffer_ok {buf : List Nat} {pos count p' : Nat}
    (h : anyBuffer buf pos count = .ok () p') : p' = pos + count := by
  unfold anyBuffer at h
  cases htb : takeByte buf pos with
  | err q => rw [htb] at h; simp at h
  | panic => rw [htb] at h; simp at h
  | ok t q =>
    rw [htb] at h
    simp only [] at h
    have hq : q = pos + 1 := takeByte_ok htb
    by_cases hk : ¬ particleTypeKnown t
    · rw [if_pos hk] at h; simp at h
    rw [if_neg hk] at h
    by_cases hz : count = 0
    · rw [if_pos hz] at h; simp at h
    rw [if_neg hz] at h
    cases htn : takeNbyte buf q (count - 1) with
    | err q2 => rw [htn] at h; simp at h
    | panic => rw [htn] at h; simp at h
    | ok body q2 =>
      rw [htn] at h
      simp only [] at h
      have hq2 : q2 = q + (count - 1) := takeNbyte_ok htn
      have hfinal : p' = q2 := by
        by_cases hs : t = 3 ∨ t = 23
        · rw [if_pos hs] at h
          by_cases hu : utf8Valid body
          · rw [if_pos hu] at h
            cases h
            rfl
          · rw [if_neg hu] at h; simp at h
        · rw [if_neg hs] at h
          cases h
          rfl
      omega

/-- C8: whenever a full `deserialize_any` decode of one CDT value succeeds
(with any fully-materializing visitor), `deserialize_ignored_any` started
at the same cursor succeeds and leaves the cursor at exactly the same
position — for every lead-byte shape, including nested containers, sized
str/bin bodies, fixed-width numbers and fixints.  `fuel` bounds the nesting
work and is arbitrary. -/
theorem ignore_any_matches_full_decode (buf : List Nat) :
    ∀ fuel : Nat,
      (∀ pos p', anyDecode buf fuel pos = .ok () p' →
        ignoreAny buf fuel pos = .ok () p') ∧
      (∀ count pos p', anySeq buf fuel count pos = .ok () p' →
        ignoreSeq buf fuel count pos = .ok () p') := by
  intro fuel
  induction fuel with
  | zero =>
    constructor
    · intro pos p' h
      have h0 : anyDecode buf 0 pos = DOut.err pos := rfl
      rw [h0] at h
      simp at h
    · intro count pos p' h
      cases count with
      | zero =>
        have h0 : anySeq buf 0 0 pos = DOut.ok () pos := rfl
        rw [h0] at h
        cases h
        rfl
      | succ c =>
        have h0 : anySeq buf 0 (c + 1) pos = DOut.err pos := rfl
        rw [h0] at h
        simp at h
  | succ fuel ih =>
    constructor
    · intro pos p' h
      rw [anyDecode] at h
      rw [ignoreAny]
      cases htb : takeByte buf pos with
      | err q => rw [htb] at h; simp at h
      | panic => rw [htb] at h; simp at h
      | ok b p =>
        rw [htb] at h
        simp only [] at h ⊢
        by_cases h1 : b ≤ 0x7f
        · rw [if_pos h1] at h ⊢; exact h
        rw [if_neg h1] at h ⊢
        by_cases h2 : b ≤ 0x8f
        · rw [if_pos h2] at h ⊢; exact ih.2 _ _ _ h
        rw [if_neg h2] at h ⊢
        by_cases h3 : b ≤ 0x9f
        · rw [if_pos h3] at h ⊢; exact ih.2 _ _ _ h
        rw [if_neg h3] at h ⊢
        by_cases h4 : b ≤ 0xbf
        · rw [if_pos h4] at h ⊢
          rw [anyBuffer_ok h]
        rw [if_neg h4] at h ⊢
        by_cases h5 : b = 0xc0
        · rw [if_pos h5] at h ⊢; exact h
        rw [if_neg h5] at h ⊢
        by_cases h6 : b = 0xc2 ∨ b = 0xc3
        · rw [if_pos h6] at h ⊢; exact h
        rw [if_neg h6] at h ⊢
        by_cases h7 : b = 0xc4 ∨ b = 0xd9
        · rw [if_pos h7] at h ⊢
          cases hr : readBE buf p 1 with
          | err q2 => rw [hr] at h; simp at h
          | panic => rw [hr] at h; simp at h
          | ok c p2 =>
            rw [hr] at h
            simp only [] at h ⊢
            rw [anyBuffer_ok h]
        rw [if_neg h7] at h ⊢
        by_cases h8 : b = 0xc5 ∨ b = 0xda
        · rw [if_pos h8] at h ⊢
          cases hr : readBE buf p 2 with
          | err q2 => rw [hr] at h; simp at h
          | panic => rw [hr] at h; simp at h
          | ok c p2 =>
            rw [hr] at h
            simp only [] at h ⊢
            rw [anyBuffer_ok h]
        rw [if_neg h8] at h ⊢
        by_cases h9 : b = 0xc6 ∨ b = 0xdb
        · rw [if_pos h9] at h ⊢
          cases hr : readBE buf p 4 with
          | err q2 => rw [hr] at h; simp at h
          | panic => rw [hr] at h; simp at h
          | ok c p2 =>
            rw [hr] at h
            simp only [] at h ⊢
            rw [anyBuffer_ok h]
        rw [if_neg h9] at h ⊢
        by_cases h10 : b = 0xca
        · rw [if_pos h10] at h ⊢; exact h
        rw [if_neg h10] at h ⊢
        by_cases h11 : b = 0xcb
        · rw [if_pos h11] at h ⊢; exact h
        rw [if_neg h11] at h ⊢
        by_cases h12 : b = 0xcc
        · rw [if_pos h12] at h ⊢; exact h
        rw [if_neg h12] at h ⊢
        by_cases h13 : b = 0xcd
        · rw [if_pos h13] at h ⊢; exact h
        rw [if_neg h13] at h ⊢
        by_cases h14 : b = 0xce
        · rw [if_pos h14] at h ⊢; exact h
        rw [if_neg h14] at h ⊢
        by_cases h15 : b = 0xcf
        · rw [if_pos h15] at h ⊢; exact h
        rw [if_neg h15] at h ⊢
        by_cases h16 : b = 0xd0
        · rw [if_pos h16] at h ⊢; exact h
        rw [if_neg h16] at h ⊢
        by_cases h17 : b = 0xd1
        · rw [if_pos h17] at h ⊢; exact h
        rw [if_neg h17] at h ⊢
        by_cases h18 : b = 0xd2
        · rw [if_pos h18] at h ⊢; exact h
        rw [if_neg h18] at h ⊢
        by_cases h19 : b = 0xd3
        · rw [if_pos h19] at h ⊢; exact h
        rw [if_neg h19] at h ⊢
        by_cases h20 : b = 0xdc
        · rw [if_pos h20] at h ⊢
          cases hr : readBE buf p 2 with
          | err q2 => rw [hr] at h; simp at h
          | panic => rw [hr] at h; simp at h
          | ok c p2 =>
            rw [hr] at h
            simp only [] at h ⊢
            exact ih.2 _ _ _ h
        rw [if_neg h20] at h ⊢
        by_cases h21 : b = 0xdd
        · rw [if_pos h21] at h ⊢
          cases hr : readBE buf p 4 with
          | err q2 => rw [hr] at h; simp at h
          | panic => rw [hr] at h; simp at h
          | ok c p2 =>
            rw [hr] at h
            simp only [] at h ⊢
            exact ih.2 _ _ _ h
        rw [if_neg h21] at h ⊢
        by_cases h22 : b = 0xde
        · rw [if_pos h22] at h ⊢
          cases hr : readBE buf p 2 with
          | err q2 => rw [hr] at h; simp at h
          | panic => rw [hr] at h; simp at h
          | ok c p2 =>
            rw [hr] at h
            simp only [] at h ⊢
            exact ih.2 _ _ _ h
        rw [if_neg h22] at h ⊢
        by_cases h23 : b = 0xdf
        · rw [if_pos h23] at h ⊢
          cases hr : readBE buf p 4 with
          | err q2 => rw [hr] at h; simp at h
          | panic => rw [hr] at h; simp at h
          | ok c p2 =>
            rw [hr] at h
            simp only [] at h ⊢
            exact ih.2 _ _ _ h
        rw [if_neg h23] at h ⊢
        by_cases h24 : 0xe0 ≤ b
        · rw [if_pos h24] at h; exact h
        · rw [if_neg h24] at h; simp at h
    · intro count pos p' h
      cases count with
      | zero =>
        have h0 : anySeq buf (fuel + 1) 0 pos = DOut.ok () pos := rfl
        rw [h0] at h
        cases h
        rfl
      | succ c =>
        have hs : anySeq buf (fuel + 1) (c + 1) pos =
            (match anyDecode buf fuel pos with
              | DOut.ok _ q => anySeq buf fuel c q
              | DOut.err q => DOut.err q
              | DOut.panic => DOut.panic) := rfl
        have hi : ignoreSeq buf (fuel + 1) (c + 1) pos =
            (match ignoreAny buf fuel pos with
              | DOut.ok _ q => ignoreSeq buf fuel c q
              | DOut.err q => ignoreSeq buf fuel c q
              | DOut.panic => DOut.panic) := rfl
        rw [hs] at h
        rw [hi]
        cases hd : anyDecode buf fuel pos with
        | err q =>
          rw [hd] at h
          simp only [] at h
          exact DOut.noConfusion h
        | panic =>
          rw [hd] at h
          simp only [] at h
          exact DOut.noConfusion h
        | ok v p =>
          rw [hd] at h
          simp only [] at h
          cases v
          rw [ih.1 pos p hd]
          simp only []
          exact ih.2 _ _ _ h

/-- C8, witness: the fixarray `[0x92, 0x01, 0xa2, 0x03, 0x41]`
(two elements: fixint 1 and the one-character string "A" with its embedded
`STRING` particle tag) fully decodes to cursor 5, and the ignore walker
lands on cursor 5 as well. -/
theorem ignore_any_matches_full_decode_witness :
    anyDecode [0x92, 0x01, 0xa2, 0x03, 0x41] 10 0 = .ok () 5 ∧
    ignoreAny [0x92, 0x01, 0xa2, 0x03, 0x41] 10 0 = .ok () 5 := by
  refine ⟨by rfl, ?_⟩
  exact (ignore_any_matches_full_decode [0x92, 0x01, 0xa2, 0x03, 0x41] 10).1
    0 5 (by rfl)

/-! ### Cycle-sort reassembly lemmas -/

/-- The original index stored at position `j` (`original_indexes[j]`). -/
def fstAt (l : IndexedReads α) (j : Nat) : Option Nat :=
  (l.get? j).map Prod.fst

/-- Number of positions already holding their own index. -/
def fixedCount (l : IndexedReads α) : Nat :=
  (List.range l.length).countP (fun j => decide (fstAt l j = some j))

/-- The map `fstAt` is injective on positions: no index is stored twice. -/
def IndexInj (l : IndexedReads α) : Prop :=
  ∀ j k, j < l.length → k < l.length → fstAt l j = fstAt l k → j = k

/-- The transposition of positions `i` and `j`. -/
def transp (i j x : Nat) : Nat :=
  if x = i then j else if x = j then i else x

theorem transp_involutive (i j x : Nat) : transp i j (transp i j x) = x := by
  unfold transp
  split_ifs <;> omega

theorem transp_lt {i j x n : Nat} (hi : i < n) (hj : j < n) (hx : x < n) :
    transp i j x < n := by
  unfold transp
  split_ifs <;> omega

theorem swapPairs_length (l : IndexedReads α) (i j : Nat) :
    (swapPairs l i j).length = l.length := by
  unfold swapPairs
  cases l.get? i <;> cases l.get? j <;> simp [List.length_set]

theorem mem_swapPairs {l : IndexedReads α} {i j : Nat} {p : Nat × α}
    (h : p ∈ swapPairs l i j) : p ∈ l := by
  unfold swapPairs at h
  cases hi : l.get? i with
  | none => rw [hi] at h; cases hj : l.get? j <;> rw [hj] at h <;> exact h
  | some a =>
    rw [hi] at h
    cases hj : l.get? j with
    | none => rw [hj] at h; exact h
    | some b =>
      rw [hj] at h
      rcases List.mem_or_eq_of_mem_set h with h' | h'
      · rcases List.mem_or_eq_of_mem_set h' with h'' | h''
        · exact h''
        · exact h'' ▸ List.get?_mem hj
      · exact h' ▸ List.get?_mem hi

/-- Swapping positions `i` and `j` permutes `fstAt` by the transposition. -/
theorem fstAt_swapPairs {l : IndexedReads α} {i j : Nat}
    (hi : i < l.length) (hj : j < l.length) (hij : i ≠ j) (k : Nat) :
    fstAt (swapPairs l i j) k = fstAt l (transp i j k) := by
  obtain ⟨a, ha⟩ := Option.isSome_iff_exists.mp
    ((List.get?_eq_get hi) ▸ Option.isSome_some)
  obtain ⟨b, hb⟩ := Option.isSome_iff_exists.mp
    ((List.get?_eq_get hj) ▸ Option.isSome_some)
  unfold swapPairs
  rw [ha, hb]
  unfold fstAt transp
  by_cases hk1 : k = i
  · subst hk1
    rw [if_pos rfl, List.get?_set_ne _ _ (Ne.symm hij), List.get?_set_eq,
      ha, hb]
    rfl
  · rw [if_neg hk1]
    by_cases hk2 : k = j
    · subst hk2
      rw [if_pos rfl, List.get?_set_eq, List.get?_set_ne _ _ (by omega), hb, ha]
      rfl
    · rw [if_neg hk2, List.get?_set_ne _ _ (by omega),
        List.get?_set_ne _ _ (by omega)]

theorem indexInj_swapPairs {l : IndexedReads α} {i j : Nat}
    (hi : i < l.length) (hj : j < l.length) (hij : i ≠ j)
    (hinj : IndexInj l) : IndexInj (swapPairs l i j) := by
  intro a b ha hb heq
  rw [swapPairs_length] at ha hb
  rw [fstAt_swapPairs hi hj hij a, fstAt_swapPairs hi hj hij b] at heq
  have := hinj _ _ (transp_lt hi hj ha) (transp_lt hi hj hb) heq
  have := congrArg (transp i j) this
  rwa [transp_involutive, transp_involutive] at this

theorem countP_lt_of_witness {β : Type} {p q : β → Bool} :
    ∀ {l : List β} (a : β), a ∈ l → p a = false → q a = true →
      (∀ x ∈ l, p x = true → q x = true) → l.countP p < l.countP q := by
  intro l
  induction l with
  | nil => intro a ha; simp at ha
  | cons x xs ih =>
    intro a ha hpa hqa hdom
    rw [List.countP_cons, List.countP_cons]
    rcases List.mem_cons.mp ha with rfl | ha'
    · rw [hpa, hqa]
      simp only [Bool.false_eq_true, if_false, if_true]
      have := List.countP_mono_left (fun x hx => hdom x (List.mem_cons_of_mem _ hx))
      omega
    · have hlt := ih a ha' hpa hqa (fun x hx => hdom x (List.mem_cons_of_mem _ hx))
      by_cases hpx : p x = true
      · rw [hpx, hdom x (List.mem_cons_self _ _) hpx]
        omega
      · simp only [Bool.not_eq_true] at hpx
        rw [hpx]
        simp only [Bool.false_eq_true, if_false]
        split_ifs <;> omega

theorem fixedCount_le (l : IndexedReads α) : fixedCount l ≤ l.length := by
  unfold fixedCount
  calc (List.range l.length).countP _ ≤ (List.range l.length).length :=
        List.countP_le_length _
    _ = l.length := List.length_range _

theorem all_fixed_of_fixedCount_eq {l : IndexedReads α}
    (h : l.length ≤ fixedCount l) : ∀ j, j < l.length → fstAt l j = some j := by
  intro j hj
  have heq : fixedCount l = (List.range l.length).length := by
    rw [List.length_range]
    exact Nat.le_antisymm (fixedCount_le l) h
  have := List.countP_eq_length.mp heq j (List.mem_range.mpr hj)
  simpa using this

/-- One swap of the inner loop strictly increases the number of fixed
positions: position `to` becomes fixed and was not fixed before (by
injectivity), other positions off `{i, to}` are untouched. -/
theorem fixedCount_lt_swapPairs {l : IndexedReads α} {i t : Nat}
    (hinj : IndexInj l) (hi : i < l.length) (hto : t < l.length)
    (hfst : fstAt l i = some t) (hne : t ≠ i) :
    fixedCount l < fixedCount (swapPairs l i t) := by
  have hswlen : (swapPairs l i t).length = l.length := swapPairs_length l i t
  unfold fixedCount
  rw [hswlen]
  apply countP_lt_of_witness t (List.mem_range.mpr hto)
  · -- `t` was not fixed: otherwise positions `i ≠ t` both store `t`.
    apply decide_eq_false
    intro hcontra
    exact hne (hinj t i hto hi (hcontra.trans hfst.symm))
  · -- `t` is fixed afterwards: it received the old `l[i]`, storing `t`.
    apply decide_eq_true
    rw [fstAt_swapPairs hi hto (Ne.symm hne) t]
    unfold transp
    rw [if_neg hne, if_pos rfl]
    exact hfst
  · intro x hxr hpx
    have hx : fstAt l x = some x := of_decide_eq_true hpx
    have hxlen : x < l.length := List.mem_range.mp hxr
    apply decide_eq_true
    rw [fstAt_swapPairs hi hto (Ne.symm hne) x]
    unfold transp
    by_cases hxi : x = i
    · subst hxi
      rw [hfst] at hx
      exact absurd (Option.some.inj hx) hne
    · rw [if_neg hxi]
      by_cases hxto : x = t
      · subst hxto
        exact absurd (hinj x i hxlen hi (hx.trans hfst.symm)) hxi
      · rw [if_neg hxto]
        exact hx

/-- The inner `while` loop (`cycleFix`) terminates within
`l.length - fixedCount l` swaps and fixes position `i`, preserving length,
injectivity, the element set and the already-fixed prefix. -/
theorem cycleFix_spec :
    ∀ (fuel : Nat) (l : IndexedReads α) (i : Nat),
      IndexInj l → (∀ p ∈ l, p.1 < l.length) → i < l.length →
      l.length - fixedCount l ≤ fuel →
      (∀ j, j < i → fstAt l j = some j) →
      (cycleFix i fuel l).length = l.length ∧
      IndexInj (cycleFix i fuel l) ∧
      (∀ p ∈ cycleFix i fuel l, p ∈ l) ∧
      (∀ j, j ≤ i → fstAt (cycleFix i fuel l) j = some j) := by
  intro fuel
  induction fuel with
  | zero =>
    intro l i hinj hbnd hi hfuel hpre
    have hall := all_fixed_of_fixedCount_eq (l := l) (by omega)
    exact ⟨rfl, hinj, fun p hp => hp, fun j hj => hall j (by omega)⟩
  | succ fuel ih =>
    intro l i hinj hbnd hi hfuel hpre
    obtain ⟨p, hp⟩ := Option.isSome_iff_exists.mp
      ((List.get?_eq_get hi) ▸ Option.isSome_some)
    rw [cycleFix, hp]
    simp only []
    by_cases hfix : p.1 = i
    · rw [if_pos hfix]
      refine ⟨rfl, hinj, fun q hq => hq, fun j hj => ?_⟩
      rcases Nat.lt_or_ge j i with h | h
      · exact hpre j h
      · have : j = i := by omega
        subst this
        unfold fstAt
        rw [hp]
        simp [hfix]
    · rw [if_neg hfix]
      have hmem : p ∈ l := List.get?_mem hp
      have htolt : p.1 < l.length := hbnd p hmem
      have hfst : fstAt l i = some p.1 := by
        unfold fstAt
        rw [hp]
        rfl
      have hswlen : (swapPairs l i p.1).length = l.length :=
        swapPairs_length l i p.1
      have hinj' : IndexInj (swapPairs l i p.1) :=
        indexInj_swapPairs hi htolt (Ne.symm hfix) hinj
      have hcount : fixedCount l < fixedCount (swapPairs l i p.1) :=
        fixedCount_lt_swapPairs hinj hi htolt hfst hfix
      have hbnd' : ∀ q ∈ swapPairs l i p.1, q.1 < (swapPairs l i p.1).length := by
        intro q hq
        rw [hswlen]
        exact hbnd q (mem_swapPairs hq)
      have hpre' : ∀ j, j < i → fstAt (swapPairs l i p.1) j = some j := by
        intro j hj
        have hjne_i : j ≠ i := by omega
        have hjne_to : j ≠ p.1 := by
          intro hcontra
          have hA : fstAt l j = some j := hpre j hj
          rw [hcontra] at hA
          exact hfix (hinj i p.1 hi htolt (hfst.trans hA.symm)).symm
        rw [fstAt_swapPairs hi htolt (Ne.symm hfix) j]
        unfold transp
        rw [if_neg hjne_i, if_neg hjne_to]
        exact hpre j hj
      have hrec := ih (swapPairs l i p.1) i hinj' hbnd'
        (by rw [hswlen]; omega) (by rw [hswlen]; omega) hpre'
      refine ⟨by rw [hrec.1, hswlen], hrec.2.1, ?_, hrec.2.2.2⟩
      intro q hq
      exact mem_swapPairs (hrec.2.2.1 q hq)

/-- The outer `for` loop fixes every position. -/
theorem cycleOuter_spec :
    ∀ (count i : Nat) (l : IndexedReads α),
      IndexInj l → (∀ p ∈ l, p.1 < l.length) →
      (∀ j, j < i → fstAt l j = some j) →
      i + count = l.length →
      (cycleOuter count i l).length = l.length ∧
      (∀ p ∈ cycleOuter count i l, p ∈ l) ∧
      (∀ j, j < l.length → fstAt (cycleOuter count i l) j = some j) := by
  intro count
  induction count with
  | zero =>
    intro i l hinj hbnd hpre hlen
    exact ⟨rfl, fun p hp => hp, fun j hj => hpre j (by omega)⟩
  | succ count ih =>
    intro i l hinj hbnd hpre hlen
    rw [cycleOuter]
    have hi : i < l.length := by omega
    have hfix := cycleFix_spec (l.length + 1) l i hinj hbnd hi (by omega) hpre
    set r := cycleFix i (l.length + 1) l with hr
    have hrec := ih (i + 1) r hfix.2.1
      (by
        intro q hq
        rw [hfix.1]
        exact hbnd q (hfix.2.2.1 q hq))
      (fun j hj => hfix.2.2.2 j (by omega))
      (by rw [hfix.1]; omega)
    refine ⟨by rw [hrec.1, hfix.1], ?_, ?_⟩
    · intro q hq
      exact hfix.2.2.1 q (hrec.2.1 q hq)
    · intro j hj
      apply hrec.2.2 j
      rw [hfix.1]
      exact hj

/-- C1: reassembly restores caller order.  If the concatenation of the
jobs' `(original_index, read)` pairs carries each original index `0..n-1`
exactly once (in any order — however the reads were sharded and whatever
order the jobs completed in), and each pair's read is the result for its
original index (`f`), then `execute_batch_read`'s concatenate-then-
cycle-sort reassembly returns exactly `[f 0, …, f (n-1)]` paired with
`0..n-1` in caller order. -/
theorem execute_batch_read_reassembles_in_order {α : Type}
    (jobs : List (IndexedReads α)) (f : Nat → α) (n : Nat)
    (hperm : (jobs.flatten.map Prod.fst).Perm (List.range n))
    (hpair : ∀ p ∈ jobs.flatten, p.2 = f p.1) :
    execute_batch_read_reassemble jobs =
      (List.range n).map (fun i => (i, f i)) := by
  cases hj : jobs with
  | nil =>
    subst hj
    simp only [List.flatten_nil, List.map_nil] at hperm
    have : List.range n = [] := hperm.symm.eq_nil
    rw [this]
    rfl
  | cons j0 rest =>
    subst hj
    set l := (j0 :: rest).flatten with hl
    have hlen : l.length = n := by
      have := hperm.length_eq
      simpa using this
    have hnodup : (l.map Prod.fst).Nodup :=
      hperm.nodup_iff.mpr (List.nodup_range n)
    have hinj : IndexInj l := by
      intro a b ha hb heq
      unfold fstAt at heq
      rw [← List.get?_map, ← List.get?_map] at heq
      exact List.get?_inj (by simpa using ha) hnodup heq
    have hbnd : ∀ p ∈ l, p.1 < l.length := by
      intro p hp
      have : p.1 ∈ l.map Prod.fst := List.mem_map.mpr ⟨p, hp, rfl⟩
      have := hperm.mem_iff.mp this
      rw [hlen]
      exact List.mem_range.mp this
    have hout := cycleOuter_spec l.length 0 l hinj hbnd
      (fun j hj => by omega) (by omega)
    show cycleOuter l.length 0 l = (List.range n).map (fun i => (i, f i))
    apply List.ext_get?
    intro k
    rcases Nat.lt_or_ge k n with hk | hk
    · have hkl : k < (cycleOuter l.length 0 l).length := by
        rw [hout.1, hlen]
        exact hk
      obtain ⟨q, hq⟩ := Option.isSome_iff_exists.mp
        ((List.get?_eq_get hkl) ▸ Option.isSome_some)
      have hfst : fstAt (cycleOuter l.length 0 l) k = some k :=
        hout.2.2 k (by rw [hlen]; exact hk)
      unfold fstAt at hfst
      rw [hq] at hfst
      have hq1 : q.1 = k := by simpa using hfst
      have hq2 : q.2 = f k := by
        have hmem : q ∈ l := hout.2.1 q (List.get?_mem hq)
        rw [hpair q hmem, hq1]
      rw [hq, List.get?_map, List.get?_range hk]
      show some q = some (k, f k)
      have hfq : f q.1 = q.2 := by rw [hq1, ← hq2]
      rw [← hq1, hfq]
    · rw [List.get?_eq_none.mpr, List.get?_eq_none.mpr]
      · rw [List.length_map, List.length_range]
        exact hk
      · rw [hout.1, hlen]
        exact hk

/-- C1, witness: jobs `[[(2, 20), (0, 0)], [(1, 10)]]` (results for caller
indexes 2, 0, 1 with `f i = 10 * i`) reassemble into caller order
`[(0, 0), (1, 10), (2, 20)]`. -/
theorem execute_batch_read_reassembles_in_order_witness :
    execute_batch_read_reassemble [[(2, 20), (0, 0)], [(1, 10)]] =
      (List.range 3).map (fun i => (i, 10 * i)) := by
  exact execute_batch_read_reassembles_in_order [[(2, 20), (0, 0)], [(1, 10)]]
    (fun i => 10 * i) 3 (by decide) (by decide)

end Aerospike
